import Mathlib

/-!
Verification of `scripts/generate_threat_intelligence_db.py`.

The script writes a binary file: a 25-byte header, then records produced by
four generator functions (phone patterns, domain patterns, phrase signatures,
metadata padding blocks), in that order.  We embed the byte-level output of
each function.  Randomness (`random.choice`, `random.randint`,
`random.random() < p`, `os.urandom`) is modelled by draw parameters: each
generator takes a stream of per-iteration draws, and a validity predicate
records exactly the ranges the Python random primitives guarantee
(`choice` returns an index below the list length, `randint(a,b)` a value in
`[a,b]`, `os.urandom(k)` exactly `k` bytes).
-/

namespace ThreatDB

/-- Bytes of an ASCII string, modelling Python's `str.encode('utf-8')`
(all string constants in the script are ASCII, where UTF-8 is the identity
on code points). -/
def sBytes (s : String) : List Nat := s.data.map Char.toNat

/-- Byte of the single-digit string `str(d)` for `0 ≤ d ≤ 9`. -/
def digitByte (n : Nat) : Nat := 48 + n

/-- `TARGET_SIZE_BYTES = 750 * 1024 * 1024`. -/
def TARGET_SIZE_BYTES : Nat := 750 * 1024 * 1024

/-- `COUNTRY_PREFIXES`, copied verbatim (duplicates included). -/
def COUNTRY_PREFIXES : List String := [
  "234", "233", "225", "221", "880", "92", "91", "63", "855", "856",
  "95", "66", "84", "62", "60", "81", "82", "98", "966", "971",
  "20", "27", "254", "237", "212", "351", "34", "39", "33", "49",
  "31", "32", "48", "358", "353", "44", "61", "64", "65", "55",
  "52", "57", "58", "54", "51", "56", "46", "47", "421", "86",
  "7", "380", "90", "81", "82", "66", "84", "65", "60", "63"]

/-- `DOMAIN_PATTERNS`, copied verbatim (including the stray leading space
in `" bitcoin"`). -/
def DOMAIN_PATTERNS : List String := [
  "paypal", "amazon", "google", "microsoft", "apple", "netflix", "bank",
  "secure", "login", "verify", "account", "support", "official", "gov",
  "irs", "hmrc", "fedex", "ups", "dhl", "usps", "royal-mail", "customs",
  " bitcoin", "crypto", "wallet", "investment", "refund", "prize"]

/-- The local `tlds` list of `generate_domain_patterns`. -/
def tlds : List String := [".com", ".net", ".org", ".tk", ".ml", ".ga", ".xyz", ".top", ".click"]

/-- The anonymous subdomain-token list passed to `random.choice` in
`generate_domain_patterns`. -/
def subdomains : List String := ["", "secure-", "login-", "verify-", "account-", "support-"]

/-- The local `phrases` list of `generate_phrase_signatures`. -/
def phrases : List String := [
  "otp", "verification code", "account locked", "urgent", "click here",
  "congratulations", "you have won", "claim your", "free gift", "bank",
  "pay now", "send money", "wire transfer", "bitcoin", "crypto",
  "refund", "overcharge", "verify", "confirm", "suspended", "expires"]

/-- Random draws consumed by one iteration of `generate_phone_patterns`:
`random.choice(COUNTRY_PREFIXES)`, `random.randint(6, 12)`,
`random.random() < 0.3`, and the digit draws of either branch. -/
structure PhoneDraws where
  prefixIdx : Nat
  suffixLen : Nat
  lowEntropy : Bool
  repDigit : Nat
  digits : List Nat

/-- Ranges guaranteed by the Python random primitives for one phone draw. -/
def PhoneDraws.Valid (d : PhoneDraws) : Prop :=
  d.prefixIdx < COUNTRY_PREFIXES.length ∧
  6 ≤ d.suffixLen ∧ d.suffixLen ≤ 12 ∧
  d.repDigit ≤ 9 ∧
  d.digits.length = d.suffixLen ∧ (∀ x ∈ d.digits, x ≤ 9)

instance (d : PhoneDraws) : Decidable d.Valid := by
  unfold PhoneDraws.Valid; infer_instance

/-- Bytes of the record one iteration of `generate_phone_patterns` writes:
`f"PHONE:{prefix}{suffix}\n".encode('utf-8')`. -/
def phoneRecord (d : PhoneDraws) : List Nat :=
  let pre := COUNTRY_PREFIXES.getD d.prefixIdx ""
  let suffix : List Nat :=
    if d.lowEntropy then List.replicate d.suffixLen (digitByte d.repDigit)
    else d.digits.map digitByte
  sBytes "PHONE:" ++ sBytes pre ++ suffix ++ [10]

/-- Random draws consumed by one iteration of `generate_domain_patterns`. -/
structure DomainDraws where
  baseIdx : Nat
  subst : Bool
  tldIdx : Nat
  subIdx : Nat
  num : Nat

/-- Ranges guaranteed by the Python random primitives for one domain draw. -/
def DomainDraws.Valid (d : DomainDraws) : Prop :=
  d.baseIdx < DOMAIN_PATTERNS.length ∧
  d.tldIdx < tlds.length ∧
  d.subIdx < subdomains.length ∧
  1 ≤ d.num ∧ d.num ≤ 999

instance (d : DomainDraws) : Decidable d.Valid := by
  unfold DomainDraws.Valid; infer_instance

/-- Python's single-character `str.replace(a, b)` (character-wise map). -/
def replaceChar (a b : Char) (s : String) : String :=
  s.map fun c => if c = a then b else c

/-- The homoglyph substitution
`base.replace('o', '0').replace('l', '1').replace('a', '4')`. -/
def homoglyph (s : String) : String :=
  replaceChar 'a' '4' (replaceChar 'l' '1' (replaceChar 'o' '0' s))

/-- Bytes of the record one iteration of `generate_domain_patterns` writes:
`f"DOMAIN:{sub}{base}{num}{tld}\n".encode('utf-8')`. -/
def domainRecord (d : DomainDraws) : List Nat :=
  let base := DOMAIN_PATTERNS.getD d.baseIdx ""
  let base1 := if d.subst then homoglyph base else base
  let tld := tlds.getD d.tldIdx ""
  let sub := subdomains.getD d.subIdx ""
  sBytes "DOMAIN:" ++ sBytes sub ++ sBytes base1 ++ sBytes (toString d.num) ++
    sBytes tld ++ [10]

/-! SHA-256 (`hashlib.sha256`), over `Nat` with explicit reduction mod `2^32`. -/

/-- Reduction to a 32-bit word. -/
def w32 (n : Nat) : Nat := n % 4294967296

/-- 32-bit modular addition. -/
def add32 (a b : Nat) : Nat := (a + b) % 4294967296

/-- 32-bit right rotation. -/
def rotr32 (x n : Nat) : Nat := w32 ((x >>> n) ||| (x <<< (32 - n)))

/-- SHA-256 big Σ0. -/
def bSig0 (x : Nat) : Nat := (rotr32 x 2) ^^^ (rotr32 x 13) ^^^ (rotr32 x 22)

/-- SHA-256 big Σ1. -/
def bSig1 (x : Nat) : Nat := (rotr32 x 6) ^^^ (rotr32 x 11) ^^^ (rotr32 x 25)

/-- SHA-256 small σ0. -/
def sSig0 (x : Nat) : Nat := (rotr32 x 7) ^^^ (rotr32 x 18) ^^^ (x >>> 3)

/-- SHA-256 small σ1. -/
def sSig1 (x : Nat) : Nat := (rotr32 x 17) ^^^ (rotr32 x 19) ^^^ (x >>> 10)

/-- SHA-256 Ch function (32-bit complement written as xor with `2^32 - 1`). -/
def ch32 (x y z : Nat) : Nat := (x &&& y) ^^^ ((x ^^^ 4294967295) &&& z)

/-- SHA-256 Maj function. -/
def maj32 (x y z : Nat) : Nat := (x &&& y) ^^^ (x &&& z) ^^^ (y &&& z)

/-- The 64 SHA-256 round constants (FIPS 180-4, written in decimal). -/
def K256 : List Nat := [
  1116352408, 1899447441, 3049323471, 3921009573, 961987163,
  1508970993, 2453635748, 2870763221, 3624381080, 310598401,
  607225278, 1426881987, 1925078388, 2162078206, 2614888103,
  3248222580, 3835390401, 4022224774, 264347078, 604807628,
  770255983, 1249150122, 1555081692, 1996064986, 2554220882,
  2821834349, 2952996808, 3210313671, 3336571891, 3584528711,
  113926993, 338241895, 666307205, 773529912, 1294757372,
  1396182291, 1695183700, 1986661051, 2177026350, 2456956037,
  2730485921, 2820302411, 3259730800, 3345764771, 3516065817,
  3600352804, 4094571909, 275423344, 430227734, 506948616,
  659060556, 883997877, 958139571, 1322822218, 1537002063,
  1747873779, 1955562222, 2024104815, 2227730452, 2361852424,
  2428436474, 2756734187, 3204031479, 3329325298]

/-- Working state: eight 32-bit hash words. -/
structure Hash256 where
  a : Nat
  b : Nat
  c : Nat
  d : Nat
  e : Nat
  f : Nat
  g : Nat
  h : Nat

/-- SHA-256 initial hash value (FIPS 180-4, written in decimal). -/
def H256init : Hash256 :=
  ⟨1779033703, 3144134277, 1013904242, 2773480762,
   1359893119, 2600822924, 528734635, 1541459225⟩

/-- Big-endian 8-byte encoding of the bit length. -/
def be64 (n : Nat) : List Nat :=
  [n / 2 ^ 56 % 256, n / 2 ^ 48 % 256, n / 2 ^ 40 % 256, n / 2 ^ 32 % 256,
   n / 2 ^ 24 % 256, n / 2 ^ 16 % 256, n / 2 ^ 8 % 256, n % 256]

/-- SHA-256 padding: `0x80`, zeros to 56 mod 64, then the 64-bit bit length. -/
def sha256pad (msg : List Nat) : List Nat :=
  let len := msg.length
  let zeros := (120 - (len + 1) % 64) % 64
  msg ++ 128 :: List.replicate zeros 0 ++ be64 (8 * len)

/-- Group bytes into big-endian 32-bit words. -/
def toWords : List Nat → List Nat
  | a :: b :: c :: d :: rest => (((a * 256 + b) * 256 + c) * 256 + d) :: toWords rest
  | _ => []

/-- Extend a message schedule by `rounds` further words. -/
def extendSchedule (w : List Nat) : Nat → List Nat
  | 0 => w
  | r + 1 =>
    let n := w.length
    let nw := add32 (add32 (sSig1 (w.getD (n - 2) 0)) (w.getD (n - 7) 0))
                    (add32 (sSig0 (w.getD (n - 15) 0)) (w.getD (n - 16) 0))
    extendSchedule (w ++ [nw]) r

/-- One SHA-256 compression round on the working state. -/
def sha256round (s : Hash256) (kw : Nat × Nat) : Hash256 :=
  let t1 := add32 s.h (add32 (bSig1 s.e) (add32 (ch32 s.e s.f s.g) (add32 kw.1 kw.2)))
  let t2 := add32 (bSig0 s.a) (maj32 s.a s.b s.c)
  ⟨add32 t1 t2, s.a, s.b, s.c, add32 s.d t1, s.e, s.f, s.g⟩

/-- Process one 64-byte block. -/
def sha256block (s : Hash256) (block : List Nat) : Hash256 :=
  let w := extendSchedule (toWords block) 48
  let t := (K256.zip w).foldl sha256round s
  ⟨add32 s.a t.a, add32 s.b t.b, add32 s.c t.c, add32 s.d t.d,
   add32 s.e t.e, add32 s.f t.f, add32 s.g t.g, add32 s.h t.h⟩

/-- Split a byte list into 64-byte chunks. -/
def chunks64 (l : List Nat) : List (List Nat) :=
  if h : l = [] then [] else l.take 64 :: chunks64 (l.drop 64)
termination_by l.length
decreasing_by
  simp only [List.length_drop]
  have : l.length ≠ 0 := fun hz => h (List.length_eq_zero.mp hz)
  omega

/-- Big-endian bytes of one hash word. -/
def word2bytes (n : Nat) : List Nat :=
  [n / 2 ^ 24 % 256, n / 2 ^ 16 % 256, n / 2 ^ 8 % 256, n % 256]

/-- Digest bytes of a final state. -/
def hashBytes (s : Hash256) : List Nat :=
  word2bytes s.a ++ word2bytes s.b ++ word2bytes s.c ++ word2bytes s.d ++
  word2bytes s.e ++ word2bytes s.f ++ word2bytes s.g ++ word2bytes s.h

/-- SHA-256 digest of a byte string (`hashlib.sha256(m).digest()`). -/
def sha256 (msg : List Nat) : List Nat :=
  hashBytes ((chunks64 (sha256pad msg)).foldl sha256block H256init)

/-- `phrase_hash(s)`: the first 16 bytes of the SHA-256 digest
(`hashlib.sha256(s.encode()).digest()[:16]`). -/
def phrase_hash (s : List Nat) : List Nat := (sha256 s).take 16

/-- Random draws consumed by one iteration of `generate_phrase_signatures`:
`random.choice(phrases)` and `random.randint(1000, 99999)`. -/
structure SigDraws where
  phraseIdx : Nat
  num : Nat

/-- Ranges guaranteed by the Python random primitives for one signature draw. -/
def SigDraws.Valid (d : SigDraws) : Prop :=
  d.phraseIdx < phrases.length ∧ 1000 ≤ d.num ∧ d.num ≤ 99999

instance (d : SigDraws) : Decidable d.Valid := by
  unfold SigDraws.Valid; infer_instance

/-- Bytes of the record one iteration of `generate_phrase_signatures` writes:
`b"SIG:" + phrase_hash(phrase) + b"\n"` for
`phrase = random.choice(phrases) + f"_{random.randint(1000, 99999)}"`. -/
def sigRecord (d : SigDraws) : List Nat :=
  let phrase := phrases.getD d.phraseIdx "" ++ "_" ++ toString d.num
  sBytes "SIG:" ++ phrase_hash (sBytes phrase) ++ [10]

/-- The common loop shape of the three record generators:
`written = 0; for i in range(count): record = ...; f.write(record);
written += len(record); return written`.  The first component is the byte
stream written to `f`, the second the returned `written` counter. -/
def writeLoop (rec : Nat → List Nat) (count : Nat) : List Nat × Nat :=
  (List.range count).foldl (fun acc i => (acc.1 ++ rec i, acc.2 + (rec i).length)) ([], 0)

/-- `generate_phone_patterns(count, f)`, with the per-iteration random draws
supplied by the stream `g`. -/
def generate_phone_patterns (count : Nat) (g : Nat → PhoneDraws) : List Nat × Nat :=
  writeLoop (fun i => phoneRecord (g i)) count

/-- `generate_domain_patterns(count, f)`, with the per-iteration random draws
supplied by the stream `g`. -/
def generate_domain_patterns (count : Nat) (g : Nat → DomainDraws) : List Nat × Nat :=
  writeLoop (fun i => domainRecord (g i)) count

/-- `generate_phrase_signatures(count, f)`, with the per-iteration random
draws supplied by the stream `g`. -/
def generate_phrase_signatures (count : Nat) (g : Nat → SigDraws) : List Nat × Nat :=
  writeLoop (fun i => sigRecord (g i)) count

/-- `os.urandom` modelled as a stream: `u i k` is the byte string returned by
the call `os.urandom(k)` made in loop iteration `i`.  `UrandomOK` is the
guarantee `len(os.urandom(k)) == k`. -/
def UrandomOK (u : Nat → Nat → List Nat) : Prop :=
  ∀ i k, (u i k).length = k

/-- The `while written < remaining` loop of `generate_metadata_blocks`:
`to_write = min(block_size - 6, remaining - written)`;
`block = b"META:" + os.urandom(to_write)`; `f.write(block + b"\n")`;
`written += len(block) + 1`.  `remaining` and `written` are Python ints,
modelled as `Int` (`remaining` may be nonpositive). -/
def metaLoop (u : Nat → Nat → List Nat) (remaining : Int) (i : Nat) (written : Int) :
    List Nat × Int :=
  if written < remaining then
    let to_write : Int := min (4096 - 6) (remaining - written)
    let block : List Nat := sBytes "META:" ++ u i to_write.toNat
    let rest := metaLoop u remaining (i + 1) (written + (block.length + 1 : Nat))
    ((block ++ [10]) ++ rest.1, rest.2)
  else ([], written)
termination_by (remaining - written).toNat
decreasing_by omega

/-- `generate_metadata_blocks(remaining, f)`: the byte stream written and the
returned `written` counter. -/
def generate_metadata_blocks (u : Nat → Nat → List Nat) (remaining : Int) : List Nat × Int :=
  metaLoop u remaining 0 0

/-- Fuel-indexed version of the metadata loop: `none` when the fuel runs out
before the loop condition fails.  Used to state termination bounds. -/
def metaLoopF (u : Nat → Nat → List Nat) (remaining : Int) :
    Nat → Nat → Int → Option (List Nat × Int)
  | fuel, i, written =>
    if written < remaining then
      match fuel with
      | 0 => none
      | fuel' + 1 =>
        let to_write : Int := min (4096 - 6) (remaining - written)
        let block : List Nat := sBytes "META:" ++ u i to_write.toNat
        match metaLoopF u remaining fuel' (i + 1) (written + (block.length + 1 : Nat)) with
        | none => none
        | some rest => some ((block ++ [10]) ++ rest.1, rest.2)
    else some ([], written)

/-- `header = b"DFS_THREAT_DB_V1\x00" + struct.pack("<Q", 0)`. -/
def pack_Q_LE (n : Nat) : List Nat :=
  [n % 256, n / 2 ^ 8 % 256, n / 2 ^ 16 % 256, n / 2 ^ 24 % 256,
   n / 2 ^ 32 % 256, n / 2 ^ 40 % 256, n / 2 ^ 48 % 256, n / 2 ^ 56 % 256]

/-- The file header written by `main` before any record. -/
def HEADER : List Nat := sBytes "DFS_THREAT_DB_V1\x00" ++ pack_Q_LE 0

/-- `phone_count = 2_500_000`. -/
def phone_count : Nat := 2500000

/-- `domain_count = 2_500_000`. -/
def domain_count : Nat := 2500000

/-- `sig_count = 6_500_000`. -/
def sig_count : Nat := 6500000

/-- One run's random draws: streams for the three record generators and for
`os.urandom` in the metadata phase. -/
structure RunDraws where
  phones : Nat → PhoneDraws
  domains : Nat → DomainDraws
  sigs : Nat → SigDraws
  urand : Nat → Nat → List Nat

/-- The tail of `main()` after the three generator calls: given the three
phases' results `p`, `dm`, `s` (bytes written, returned count), assemble the
file content and the final `total`.  `total` accumulates the three counts
(the header bytes are not added to `total`, as in the source);
`remaining = TARGET_SIZE_BYTES - total`; the metadata filler runs only when
`remaining > 0`. -/
def mainAssemble (p dm s : List Nat × Nat) (u : Nat → Nat → List Nat) : List Nat × Int :=
  let total : Int := (p.2 : Int) + dm.2 + s.2
  let remaining : Int := (TARGET_SIZE_BYTES : Int) - total
  if 0 < remaining then
    let m := generate_metadata_blocks u remaining
    (HEADER ++ p.1 ++ dm.1 ++ s.1 ++ m.1, total + m.2)
  else
    (HEADER ++ p.1 ++ dm.1 ++ s.1, total)

/-- `main()`: header, then the four phases in order with the hardcoded
counts.  First component: the full byte content of the output file; second:
the final `total` counter. -/
def mainOutput (d : RunDraws) : List Nat × Int :=
  mainAssemble (generate_phone_patterns phone_count d.phones)
    (generate_domain_patterns domain_count d.domains)
    (generate_phrase_signatures sig_count d.sigs) d.urand

/-- A concrete `os.urandom` behaviour (all-zero bytes) used to instantiate
theorems at concrete inputs. -/
def urandZeros : Nat → Nat → List Nat := fun _ k => List.replicate k 0

/-- A concrete phone-draw stream used to instantiate theorems. -/
def phoneDraws0 : Nat → PhoneDraws := fun _ => ⟨0, 6, true, 3, [1, 2, 3, 4, 5, 6]⟩

/-- A concrete domain-draw stream used to instantiate theorems. -/
def domainDraws0 : Nat → DomainDraws := fun _ => ⟨0, true, 0, 0, 1⟩

/-- A concrete signature-draw stream used to instantiate theorems. -/
def sigDraws0 : Nat → SigDraws := fun _ => ⟨0, 1000⟩

/-- A concrete run (all four draw streams fixed) used to instantiate
theorems. -/
def run0 : RunDraws := ⟨phoneDraws0, domainDraws0, sigDraws0, urandZeros⟩

/-! Helper lemmas. -/

/-- The all-zero `os.urandom` model satisfies the length guarantee. -/
theorem urandZeros_ok : UrandomOK urandZeros := by
  intro i k
  simp [urandZeros]

/-- An in-range `getD` is a member of the list. -/
theorem getD_mem {α : Type} (l : List α) (i : Nat) (d : α) (h : i < l.length) :
    l.getD i d ∈ l := by
  rw [List.getD_eq_getElem l d h]
  exact List.getElem_mem h

/-- The concrete phone draw satisfies the range guarantees. -/
theorem phoneDraws0_valid (i : Nat) : (phoneDraws0 i).Valid := by
  unfold phoneDraws0
  decide

/-- The concrete domain draw satisfies the range guarantees. -/
theorem domainDraws0_valid (i : Nat) : (domainDraws0 i).Valid := by
  unfold domainDraws0
  decide

/-- The concrete signature draw satisfies the range guarantees. -/
theorem sigDraws0_valid (i : Nat) : (sigDraws0 i).Valid := by
  unfold sigDraws0
  decide

/-- `sBytes` distributes over string append. -/
theorem sBytes_append (s t : String) : sBytes (s ++ t) = sBytes s ++ sBytes t := by
  simp [sBytes, String.data_append]

/-- The generator loop writes the concatenation of the per-iteration records
and returns its length. -/
theorem writeLoop_foldl (rec : Nat → List Nat) :
    ∀ (l : List Nat) (acc : List Nat × Nat),
      l.foldl (fun acc i => (acc.1 ++ rec i, acc.2 + (rec i).length)) acc =
        (acc.1 ++ l.flatMap rec, acc.2 + (l.flatMap rec).length) := by
  intro l
  induction l with
  | nil => intro acc; simp
  | cons x xs ih =>
    intro acc
    simp only [List.foldl_cons, ih, List.flatMap_cons, List.append_assoc,
      List.length_append, Nat.add_assoc]

/-- Closed form of `writeLoop`. -/
theorem writeLoop_eq (rec : Nat → List Nat) (count : Nat) :
    writeLoop rec count =
      ((List.range count).flatMap rec, ((List.range count).flatMap rec).length) := by
  unfold writeLoop
  rw [writeLoop_foldl]
  simp

/-- Exit case of the metadata loop. -/
theorem metaLoop_exit (u : Nat → Nat → List Nat) (r : Int) (i : Nat) (w : Int)
    (h : ¬ w < r) : metaLoop u r i w = ([], w) := by
  rw [metaLoop]
  simp [h]

/-- Step case of the metadata loop. -/
theorem metaLoop_step (u : Nat → Nat → List Nat) (r : Int) (i : Nat) (w : Int)
    (h : w < r) :
    metaLoop u r i w =
      (((sBytes "META:" ++ u i (min (4096 - 6) (r - w)).toNat) ++ [10]) ++
        (metaLoop u r (i + 1)
          (w + ((sBytes "META:" ++ u i (min (4096 - 6) (r - w)).toNat).length + 1 : Nat))).1,
       (metaLoop u r (i + 1)
          (w + ((sBytes "META:" ++ u i (min (4096 - 6) (r - w)).toNat).length + 1 : Nat))).2) := by
  rw [metaLoop]
  simp [h]

/-- Loop invariant: the returned counter equals the initial counter plus the
number of bytes written, and on entry with `written < remaining` the loop
only stops once the counter has reached `remaining`. -/
theorem metaLoop_count_ge (u : Nat → Nat → List Nat) (r : Int) :
    ∀ (n : Nat) (i : Nat) (w : Int), (r - w).toNat ≤ n →
      (metaLoop u r i w).2 = w + (metaLoop u r i w).1.length ∧
      (w < r → r ≤ (metaLoop u r i w).2) := by
  intro n
  induction n with
  | zero =>
    intro i w hn
    have hw : ¬ w < r := by omega
    rw [metaLoop_exit u r i w hw]
    simp
    omega
  | succ n ih =>
    intro i w hn
    by_cases hw : w < r
    · rw [metaLoop_step u r i w hw]
      set block := sBytes "META:" ++ u i (min (4096 - 6) (r - w)).toNat with hb
      have hrec := ih (i + 1) (w + (block.length + 1 : Nat)) (by omega)
      constructor
      · simp only [List.length_append, List.length_cons, List.length_nil]
        omega
      · intro _
        rcases hrec with ⟨h1, h2⟩
        by_cases hw2 : (w + (block.length + 1 : Nat) : Int) < r
        · exact h2 hw2
        · rw [metaLoop_exit u r (i + 1) _ hw2] at h1 ⊢
          simp at h1 ⊢
          omega
    · rw [metaLoop_exit u r i w hw]
      simp
      omega

/-- Length of the `META:` tag. -/
theorem sBytes_META_length : (sBytes "META:").length = 5 := rfl

/-- Length of the `SIG:` tag. -/
theorem sBytes_SIG_length : (sBytes "SIG:").length = 4 := rfl

/-- Under the `os.urandom` length guarantee the loop overshoots `remaining`
by at most the 6 bytes of tag-plus-newline overhead, and every emitted block
(tag, data, newline) is at most `block_size = 4096` bytes and starts with the
`META:` tag. -/
theorem metaLoop_le (u : Nat → Nat → List Nat) (hu : UrandomOK u) (r : Int) :
    ∀ (n : Nat) (i : Nat) (w : Int), (r - w).toNat ≤ n →
      ((w < r → (metaLoop u r i w).2 ≤ r + 6) ∧
       ∃ bs : List (List Nat), (metaLoop u r i w).1 = bs.flatten ∧
         ∀ b ∈ bs, b.length ≤ 4096 ∧ b.take 5 = sBytes "META:") := by
  intro n
  induction n with
  | zero =>
    intro i w hn
    have hw : ¬ w < r := by omega
    rw [metaLoop_exit u r i w hw]
    exact ⟨fun h => absurd h hw, [], by simp⟩
  | succ n ih =>
    intro i w hn
    by_cases hw : w < r
    · rw [metaLoop_step u r i w hw]
      set tw : Int := min (4096 - 6) (r - w) with htw
      have htw1 : 1 ≤ tw := by omega
      have htwle : tw ≤ 4090 := by omega
      have htwr : tw ≤ r - w := by omega
      have hlen : (sBytes "META:" ++ u i tw.toNat).length = 5 + tw.toNat := by
        simp [List.length_append, sBytes_META_length, hu i tw.toNat]
      have hcast : ((5 + tw.toNat : Nat) : Int) = 5 + tw := by
        omega
      set w' : Int := w + ((sBytes "META:" ++ u i tw.toNat).length + 1 : Nat) with hw'
      have hw'val : w' = w + 6 + tw := by
        rw [hw', hlen]
        push_cast
        omega
      have hrec := ih (i + 1) w' (by omega)
      rcases hrec with ⟨hle, bs, hflat, hblocks⟩
      refine ⟨fun _ => ?_, ((sBytes "META:" ++ u i tw.toNat) ++ [10]) :: bs, ?_, ?_⟩
      · by_cases hw2 : w' < r
        · exact hle hw2
        · rw [metaLoop_exit u r (i + 1) w' hw2]
          simp
          omega
      · simp [hflat]
      · intro b hb
        rcases List.mem_cons.mp hb with hb1 | hb2
        · subst hb1
          constructor
          · simp only [List.length_append, hlen, List.length_cons, List.length_nil]
            omega
          · rw [List.append_assoc]
            have h5 : 5 = (sBytes "META:").length := rfl
            rw [h5, List.take_left]
        · exact hblocks b hb2
    · rw [metaLoop_exit u r i w hw]
      exact ⟨fun h => absurd h hw, [], by simp⟩

/-- Fuel adequacy for the metadata loop: under the `os.urandom` length
guarantee every iteration adds at least 7 to the counter (`to_write ≥ 1`
plus 5 tag bytes plus the newline), so `⌈(remaining - written) / 7⌉` units of
fuel suffice for the fuel-indexed loop to reach the exit condition and agree
with the loop. -/
theorem metaLoopF_eq (u : Nat → Nat → List Nat) (hu : UrandomOK u) (r : Int) :
    ∀ (fuel : Nat) (i : Nat) (w : Int), (r - w).toNat ≤ 7 * fuel →
      metaLoopF u r fuel i w = some (metaLoop u r i w) := by
  intro fuel
  induction fuel with
  | zero =>
    intro i w hn
    have hw : ¬ w < r := by omega
    rw [metaLoop_exit u r i w hw, metaLoopF]
    simp [hw]
  | succ n ih =>
    intro i w hn
    by_cases hw : w < r
    · rw [metaLoop_step u r i w hw, metaLoopF]
      simp only [hw, if_true]
      set tw : Int := min (4096 - 6) (r - w) with htw
      have htw1 : 1 ≤ tw := by omega
      have hlen : (sBytes "META:" ++ u i tw.toNat).length = 5 + tw.toNat := by
        simp [List.length_append, sBytes_META_length, hu i tw.toNat]
      set w' : Int := w + ((sBytes "META:" ++ u i tw.toNat).length + 1 : Nat) with hw'
      have hw'val : w' = w + 6 + tw := by
        rw [hw', hlen]
        push_cast
        omega
      rw [ih (i + 1) w' (by omega)]
    · rw [metaLoop_exit u r i w hw, metaLoopF]
      simp [hw]

/-- A SHA-256 digest is 32 bytes (8 words of 4 bytes). -/
theorem hashBytes_length (s : Hash256) : (hashBytes s).length = 32 := by
  simp [hashBytes, word2bytes]

/-- `hashlib.sha256(m).digest()` has 32 bytes. -/
theorem sha256_length (m : List Nat) : (sha256 m).length = 32 := by
  unfold sha256
  exact hashBytes_length _

/-- `phrase_hash` truncates the digest to 16 bytes. -/
theorem phrase_hash_length (s : List Nat) : (phrase_hash s).length = 16 := by
  unfold phrase_hash
  simp [List.length_take, sha256_length]

/-- The header is 25 bytes. -/
theorem HEADER_length : HEADER.length = 25 := rfl

/-- `mainOutput` is `mainAssemble` applied to the three phases' results. -/
theorem mainOutput_eq (d : RunDraws) :
    mainOutput d =
      mainAssemble (generate_phone_patterns phone_count d.phones)
        (generate_domain_patterns domain_count d.domains)
        (generate_phrase_signatures sig_count d.sigs) d.urand := rfl

/-- The assembled file is at least the header plus the three phases. -/
theorem mainAssemble_ge (p dm s : List Nat × Nat) (u : Nat → Nat → List Nat) :
    25 + p.1.length + dm.1.length + s.1.length ≤ (mainAssemble p dm s u).1.length := by
  unfold mainAssemble
  dsimp only
  split
  · dsimp only
    simp only [List.length_append, HEADER_length]
    omega
  · dsimp only
    simp only [List.length_append, HEADER_length]
    omega

/-- The assembled file starts with the header. -/
theorem mainAssemble_prefix (p dm s : List Nat × Nat) (u : Nat → Nat → List Nat) :
    ∃ rest, (mainAssemble p dm s u).1 = HEADER ++ rest := by
  unfold mainAssemble
  dsimp only
  split
  · exact ⟨_, rfl⟩
  · exact ⟨_, rfl⟩

/-- The first 25 bytes of the assembled file are the header. -/
theorem mainAssemble_take (p dm s : List Nat × Nat) (u : Nat → Nat → List Nat) :
    (mainAssemble p dm s u).1.take 25 = HEADER := by
  have h25 : (25 : Nat) = HEADER.length := rfl
  unfold mainAssemble
  dsimp only
  split
  · dsimp only
    simp only [List.append_assoc]
    rw [h25, List.take_left]
  · dsimp only
    simp only [List.append_assoc]
    rw [h25, List.take_left]

/-- Closed form of the assembled file content: header, the three phases'
bytes, then the metadata bytes exactly when `remaining > 0`. -/
theorem mainAssemble_eq_ite (p dm s : List Nat × Nat) (u : Nat → Nat → List Nat) :
    (mainAssemble p dm s u).1 =
      HEADER ++ p.1 ++ dm.1 ++ s.1 ++
        (if 0 < (TARGET_SIZE_BYTES : Int) - ((p.2 : Int) + dm.2 + s.2)
          then (generate_metadata_blocks u
            ((TARGET_SIZE_BYTES : Int) - ((p.2 : Int) + dm.2 + s.2))).1
          else []) := by
  unfold mainAssemble
  dsimp only
  split_ifs with h
  · rfl
  · simp

/-- Concrete evaluation: `generate_metadata_blocks` at `remaining = 1` writes
one 7-byte block (`META:`, one random byte, newline) and returns 7. -/
theorem gen_meta_one : generate_metadata_blocks urandZeros 1 = ([77, 69, 84, 65, 58, 0, 10], 7) := by
  have h := metaLoopF_eq urandZeros urandZeros_ok 1 1 0 0 (by norm_num)
  have h2 : metaLoopF urandZeros 1 1 0 0 = some ([77, 69, 84, 65, 58, 0, 10], 7) := by decide
  rw [h2] at h
  have := Option.some.inj h
  unfold generate_metadata_blocks
  exact this.symm

/-- Ceiling bound used for the termination fuel: `n ≤ 7 * ⌈n / 7⌉`. -/
theorem seven_div_bound (n : Nat) : n ≤ 7 * ((n + 6) / 7) := by
  have h1 := Nat.div_add_mod (n + 6) 7
  have h2 : (n + 6) % 7 < 7 := Nat.mod_lt _ (by norm_num)
  omega

/-! Claim theorems. -/

/-- C1, counterexample: it is not the case that for every `remaining > 0`
`generate_metadata_blocks(remaining, f)` writes (and returns) exactly
`remaining` bytes: at `remaining = 1`, with `os.urandom` returning all-zero
bytes of the requested length, it writes one block `META:` + 1 byte +
newline, returning 7 ≠ 1. -/
theorem C1_counterexample :
    ¬ (∀ (u : Nat → Nat → List Nat), UrandomOK u → ∀ r : Int, 0 < r →
        (generate_metadata_blocks u r).2 = r) := by
  intro hclaim
  have h := hclaim urandZeros urandZeros_ok 1 (by norm_num)
  rw [gen_meta_one] at h
  exact absurd h (by norm_num)

/-- C1, amended: for every `remaining > 0`, `generate_metadata_blocks`
writes `META` blocks until the cumulative bytes written reach `remaining`,
and the returned count equals the bytes written; because the final block's
truncation length does not account for the 5-byte tag and 1-byte newline,
the count reaches at least `remaining` but may exceed it by up to 6 bytes
(rather than equalling it exactly). -/
theorem C1_meta_fill (u : Nat → Nat → List Nat) (hu : UrandomOK u) (r : Int)
    (hr : 0 < r) :
    (generate_metadata_blocks u r).2 = ((generate_metadata_blocks u r).1.length : Int) ∧
    r ≤ (generate_metadata_blocks u r).2 ∧
    (generate_metadata_blocks u r).2 ≤ r + 6 := by
  have h1 := metaLoop_count_ge u r (r - 0).toNat 0 0 (le_refl _)
  have h2 := metaLoop_le u hu r (r - 0).toNat 0 0 (le_refl _)
  unfold generate_metadata_blocks
  refine ⟨?_, h1.2 hr, h2.1 hr⟩
  have h3 := h1.1
  omega

/-- C1 witness: the amended statement at `u = urandZeros`, `remaining = 1`. -/
theorem C1_meta_fill_witness :
    UrandomOK urandZeros ∧ (0 : Int) < 1 ∧
    ((generate_metadata_blocks urandZeros 1).2 =
        ((generate_metadata_blocks urandZeros 1).1.length : Int) ∧
      1 ≤ (generate_metadata_blocks urandZeros 1).2 ∧
      (generate_metadata_blocks urandZeros 1).2 ≤ 1 + 6) :=
  ⟨urandZeros_ok, by norm_num, C1_meta_fill urandZeros urandZeros_ok 1 (by norm_num)⟩

/-- C2: the metadata phase never decreases the total: for `remaining > 0`
the returned count is at least `remaining`; for `remaining ≤ 0` the loop body
never runs (nothing is written, 0 is returned); and in every run the final
file size is at least the header plus the three fixed-count phases'
contribution. -/
theorem C2_meta_monotone :
    (∀ (u : Nat → Nat → List Nat) (r : Int), 0 < r →
      r ≤ (generate_metadata_blocks u r).2) ∧
    (∀ (u : Nat → Nat → List Nat) (r : Int), r ≤ 0 →
      generate_metadata_blocks u r = ([], 0)) ∧
    (∀ d : RunDraws,
      25 + (generate_phone_patterns phone_count d.phones).1.length +
        (generate_domain_patterns domain_count d.domains).1.length +
        (generate_phrase_signatures sig_count d.sigs).1.length ≤
        (mainOutput d).1.length) := by
  refine ⟨?_, ?_, ?_⟩
  · intro u r hr
    exact (metaLoop_count_ge u r (r - 0).toNat 0 0 (le_refl _)).2 hr
  · intro u r hr
    unfold generate_metadata_blocks
    exact metaLoop_exit u r 0 0 (by omega)
  · intro d
    rw [mainOutput_eq]
    exact mainAssemble_ge _ _ _ _

/-- C2 witness: both `generate_metadata_blocks` conjuncts instantiated at
concrete inputs (`remaining = 1` and `remaining = -3`). -/
theorem C2_witness :
    ((0 : Int) < 1 ∧ 1 ≤ (generate_metadata_blocks urandZeros 1).2) ∧
    ((-3 : Int) ≤ 0 ∧ generate_metadata_blocks urandZeros (-3) = ([], 0)) :=
  ⟨⟨by norm_num, C2_meta_monotone.1 urandZeros 1 (by norm_num)⟩,
   ⟨by norm_num, C2_meta_monotone.2.1 urandZeros (-3) (by norm_num)⟩⟩

/-- C9: for every `remaining > 0` (and `os.urandom` returning the requested
number of bytes) the metadata filler returns at most `remaining + 6` — the
final block's truncation ignores the 5-byte tag and 1-byte newline, never
more — and the written stream splits into blocks (tag + data + newline) of at
most 4096 bytes each. -/
theorem C9_meta_overshoot (u : Nat → Nat → List Nat) (hu : UrandomOK u)
    (r : Int) (hr : 0 < r) :
    (generate_metadata_blocks u r).2 ≤ r + 6 ∧
    ∃ bs : List (List Nat), (generate_metadata_blocks u r).1 = bs.flatten ∧
      ∀ b ∈ bs, b.length ≤ 4096 ∧ b.take 5 = sBytes "META:" := by
  have h := metaLoop_le u hu r (r - 0).toNat 0 0 (le_refl _)
  unfold generate_metadata_blocks
  exact ⟨h.1 hr, h.2⟩

/-- C9 witness at `u = urandZeros`, `remaining = 1`. -/
theorem C9_witness :
    UrandomOK urandZeros ∧ (0 : Int) < 1 ∧
    ((generate_metadata_blocks urandZeros 1).2 ≤ 1 + 6 ∧
      ∃ bs : List (List Nat), (generate_metadata_blocks urandZeros 1).1 = bs.flatten ∧
        ∀ b ∈ bs, b.length ≤ 4096 ∧ b.take 5 = sBytes "META:") :=
  ⟨urandZeros_ok, by norm_num, C9_meta_overshoot urandZeros urandZeros_ok 1 (by norm_num)⟩

/-- C10: `generate_metadata_blocks` terminates for every integer
`remaining`: for `remaining ≤ 0` the loop body never runs and it returns 0
having written nothing, and for any `remaining` the fuel-indexed loop
reaches the exit within `⌈remaining / 7⌉` iterations and agrees with the
loop — each iteration increases the counter by at least 7 (`to_write ≥ 1`
plus the 6 bytes of tag and newline). -/
theorem C10_termination :
    (∀ (u : Nat → Nat → List Nat) (r : Int), r ≤ 0 →
      generate_metadata_blocks u r = ([], 0)) ∧
    (∀ (u : Nat → Nat → List Nat), UrandomOK u → ∀ r : Int,
      metaLoopF u r ((r.toNat + 6) / 7) 0 0 = some (generate_metadata_blocks u r)) := by
  constructor
  · intro u r hr
    unfold generate_metadata_blocks
    exact metaLoop_exit u r 0 0 (by omega)
  · intro u hu r
    unfold generate_metadata_blocks
    apply metaLoopF_eq u hu r
    have := seven_div_bound r.toNat
    omega

/-- C10 witness at `remaining = -2` (loop skipped) and `remaining = 5`
(fuel `⌈5 / 7⌉ = 1` suffices). -/
theorem C10_witness :
    ((-2 : Int) ≤ 0 ∧ generate_metadata_blocks urandZeros (-2) = ([], 0)) ∧
    (UrandomOK urandZeros ∧
      metaLoopF urandZeros 5 (((5 : Int).toNat + 6) / 7) 0 0 =
        some (generate_metadata_blocks urandZeros 5)) :=
  ⟨⟨by norm_num, C10_termination.1 urandZeros (-2) (by norm_num)⟩,
   ⟨urandZeros_ok, C10_termination.2 urandZeros urandZeros_ok 5⟩⟩

/-- C3: in every run the file content is exactly the 25-byte header followed
by the four phases' output in the order phone, domain, signature, metadata,
with the hardcoded counts 2500000 / 2500000 / 6500000, the metadata phase
invoked with `remaining = TARGET_SIZE_BYTES` minus the total written so far
and only when that value is positive. -/
theorem C3_structure (d : RunDraws) :
    (mainOutput d).1 =
      HEADER ++ (generate_phone_patterns 2500000 d.phones).1 ++
        (generate_domain_patterns 2500000 d.domains).1 ++
        (generate_phrase_signatures 6500000 d.sigs).1 ++
        (if 0 < (TARGET_SIZE_BYTES : Int) -
              (((generate_phone_patterns 2500000 d.phones).2 : Int) +
                (generate_domain_patterns 2500000 d.domains).2 +
                (generate_phrase_signatures 6500000 d.sigs).2)
          then (generate_metadata_blocks d.urand
            ((TARGET_SIZE_BYTES : Int) -
              (((generate_phone_patterns 2500000 d.phones).2 : Int) +
                (generate_domain_patterns 2500000 d.domains).2 +
                (generate_phrase_signatures 6500000 d.sigs).2))).1
          else []) ∧
    HEADER.length = 25 ∧
    phone_count = 2500000 ∧ domain_count = 2500000 ∧ sig_count = 6500000 := by
  refine ⟨?_, rfl, rfl, rfl, rfl⟩
  rw [mainOutput_eq]
  exact mainAssemble_eq_ite _ _ _ _

/-- C4: every record written by `generate_phone_patterns` is the line
`PHONE:` + prefix + suffix + newline, with the prefix an element of
`COUNTRY_PREFIXES`, the suffix length in `[6, 12]`, and the suffix either one
repeated digit (low-entropy branch) or a string of digits; the returned
count is the number of bytes written. -/
theorem C4_phone (count : Nat) (g : Nat → PhoneDraws)
    (hv : ∀ i, i < count → (g i).Valid) :
    (generate_phone_patterns count g).2 = (generate_phone_patterns count g).1.length ∧
    (generate_phone_patterns count g).1 =
      (List.range count).flatMap (fun i => phoneRecord (g i)) ∧
    ∀ i, i < count → ∃ p ∈ COUNTRY_PREFIXES, ∃ suffix : List Nat,
      phoneRecord (g i) = sBytes "PHONE:" ++ sBytes p ++ suffix ++ [10] ∧
      6 ≤ suffix.length ∧ suffix.length ≤ 12 ∧
      ((∃ d0, d0 ≤ 9 ∧ suffix = List.replicate suffix.length (digitByte d0)) ∨
        (∀ b ∈ suffix, 48 ≤ b ∧ b ≤ 57)) := by
  have hw := writeLoop_eq (fun i => phoneRecord (g i)) count
  refine ⟨?_, ?_, ?_⟩
  · unfold generate_phone_patterns
    rw [hw]
  · unfold generate_phone_patterns
    rw [hw]
  · intro i hi
    obtain ⟨h1, h2, h3, h4, h5, h6⟩ := hv i hi
    refine ⟨COUNTRY_PREFIXES.getD (g i).prefixIdx "", getD_mem _ _ _ h1, ?_⟩
    unfold phoneRecord
    dsimp only
    by_cases hle : (g i).lowEntropy
    · refine ⟨List.replicate (g i).suffixLen (digitByte (g i).repDigit), ?_, ?_, ?_, ?_⟩
      · rw [if_pos hle]
      · rw [List.length_replicate]
        exact h2
      · rw [List.length_replicate]
        exact h3
      · exact Or.inl ⟨(g i).repDigit, h4, by rw [List.length_replicate]⟩
    · refine ⟨(g i).digits.map digitByte, ?_, ?_, ?_, ?_⟩
      · rw [if_neg hle]
      · rw [List.length_map, h5]
        exact h2
      · rw [List.length_map, h5]
        exact h3
      · refine Or.inr fun b hb => ?_
        obtain ⟨x, hx, hxb⟩ := List.mem_map.mp hb
        have hx9 := h6 x hx
        subst hxb
        unfold digitByte
        omega

/-- C4 witness: one iteration with a concrete valid draw. -/
theorem C4_witness :
    (∀ i, i < 1 → (phoneDraws0 i).Valid) ∧
    ((generate_phone_patterns 1 phoneDraws0).2 =
        (generate_phone_patterns 1 phoneDraws0).1.length ∧
      (generate_phone_patterns 1 phoneDraws0).1 =
        (List.range 1).flatMap (fun i => phoneRecord (phoneDraws0 i)) ∧
      ∀ i, i < 1 → ∃ p ∈ COUNTRY_PREFIXES, ∃ suffix : List Nat,
        phoneRecord (phoneDraws0 i) = sBytes "PHONE:" ++ sBytes p ++ suffix ++ [10] ∧
        6 ≤ suffix.length ∧ suffix.length ≤ 12 ∧
        ((∃ d0, d0 ≤ 9 ∧ suffix = List.replicate suffix.length (digitByte d0)) ∨
          (∀ b ∈ suffix, 48 ≤ b ∧ b ≤ 57))) :=
  ⟨fun i _ => phoneDraws0_valid i, C4_phone 1 phoneDraws0 (fun i _ => phoneDraws0_valid i)⟩

/-- C5: every record written by `generate_domain_patterns` is the line
`DOMAIN:` + sub + base + n + tld + newline, with the tld an element of the
fixed `tlds` list, the base an element of `DOMAIN_PATTERNS` either unchanged
or with the o→0, l→1, a→4 substitutions applied (probability-0.2 branch),
the sub one of the fixed subdomain tokens (possibly empty), and the numeric
suffix in `[1, 999]`. -/
theorem C5_domain (count : Nat) (g : Nat → DomainDraws)
    (hv : ∀ i, i < count → (g i).Valid) :
    (generate_domain_patterns count g).2 = (generate_domain_patterns count g).1.length ∧
    (generate_domain_patterns count g).1 =
      (List.range count).flatMap (fun i => domainRecord (g i)) ∧
    ∀ i, i < count → ∃ tld ∈ tlds, ∃ base ∈ DOMAIN_PATTERNS, ∃ sub ∈ subdomains,
      ∃ n, 1 ≤ n ∧ n ≤ 999 ∧ ∃ b1 : String,
        (b1 = base ∨ b1 = homoglyph base) ∧
        domainRecord (g i) = sBytes "DOMAIN:" ++ sBytes sub ++ sBytes b1 ++
          sBytes (toString n) ++ sBytes tld ++ [10] := by
  have hw := writeLoop_eq (fun i => domainRecord (g i)) count
  refine ⟨?_, ?_, ?_⟩
  · unfold generate_domain_patterns
    rw [hw]
  · unfold generate_domain_patterns
    rw [hw]
  · intro i hi
    obtain ⟨h1, h2, h3, h4, h5⟩ := hv i hi
    refine ⟨tlds.getD (g i).tldIdx "", getD_mem _ _ _ h2,
      DOMAIN_PATTERNS.getD (g i).baseIdx "", getD_mem _ _ _ h1,
      subdomains.getD (g i).subIdx "", getD_mem _ _ _ h3,
      (g i).num, h4, h5, ?_⟩
    unfold domainRecord
    dsimp only
    by_cases hs : (g i).subst
    · exact ⟨homoglyph (DOMAIN_PATTERNS.getD (g i).baseIdx ""), Or.inr rfl,
        by rw [if_pos hs]⟩
    · exact ⟨DOMAIN_PATTERNS.getD (g i).baseIdx "", Or.inl rfl, by rw [if_neg hs]⟩

/-- C5 witness: one iteration with a concrete valid draw (substitution
branch taken). -/
theorem C5_witness :
    (∀ i, i < 1 → (domainDraws0 i).Valid) ∧
    ((generate_domain_patterns 1 domainDraws0).2 =
        (generate_domain_patterns 1 domainDraws0).1.length ∧
      (generate_domain_patterns 1 domainDraws0).1 =
        (List.range 1).flatMap (fun i => domainRecord (domainDraws0 i)) ∧
      ∀ i, i < 1 → ∃ tld ∈ tlds, ∃ base ∈ DOMAIN_PATTERNS, ∃ sub ∈ subdomains,
        ∃ n, 1 ≤ n ∧ n ≤ 999 ∧ ∃ b1 : String,
          (b1 = base ∨ b1 = homoglyph base) ∧
          domainRecord (domainDraws0 i) = sBytes "DOMAIN:" ++ sBytes sub ++ sBytes b1 ++
            sBytes (toString n) ++ sBytes tld ++ [10]) :=
  ⟨fun i _ => domainDraws0_valid i, C5_domain 1 domainDraws0 (fun i _ => domainDraws0_valid i)⟩

/-- C6: every record written by `generate_phrase_signatures` is exactly 21
bytes: the 4-byte tag `SIG:`, the first 16 bytes of the SHA-256 digest of a
phrase from the fixed list concatenated with an underscore and a number in
`[1000, 99999]`, and one newline byte. -/
theorem C6_sig (count : Nat) (g : Nat → SigDraws)
    (hv : ∀ i, i < count → (g i).Valid) :
    (generate_phrase_signatures count g).2 =
        (generate_phrase_signatures count g).1.length ∧
    (generate_phrase_signatures count g).1 =
      (List.range count).flatMap (fun i => sigRecord (g i)) ∧
    ∀ i, i < count → (sigRecord (g i)).length = 21 ∧
      ∃ ph ∈ phrases, ∃ n, 1000 ≤ n ∧ n ≤ 99999 ∧
        sigRecord (g i) =
          sBytes "SIG:" ++ (sha256 (sBytes (ph ++ "_" ++ toString n))).take 16 ++ [10] := by
  have hw := writeLoop_eq (fun i => sigRecord (g i)) count
  refine ⟨?_, ?_, ?_⟩
  · unfold generate_phrase_signatures
    rw [hw]
  · unfold generate_phrase_signatures
    rw [hw]
  · intro i hi
    obtain ⟨h1, h2, h3⟩ := hv i hi
    constructor
    · simp [sigRecord, sBytes_SIG_length, phrase_hash_length]
    · refine ⟨phrases.getD (g i).phraseIdx "", getD_mem _ _ _ h1, (g i).num, h2, h3, ?_⟩
      unfold sigRecord phrase_hash
      dsimp only

/-- C6 witness: one iteration with a concrete valid draw. -/
theorem C6_witness :
    (∀ i, i < 1 → (sigDraws0 i).Valid) ∧
    ((generate_phrase_signatures 1 sigDraws0).2 =
        (generate_phrase_signatures 1 sigDraws0).1.length ∧
      (generate_phrase_signatures 1 sigDraws0).1 =
        (List.range 1).flatMap (fun i => sigRecord (sigDraws0 i)) ∧
      ∀ i, i < 1 → (sigRecord (sigDraws0 i)).length = 21 ∧
        ∃ ph ∈ phrases, ∃ n, 1000 ≤ n ∧ n ≤ 99999 ∧
          sigRecord (sigDraws0 i) =
            sBytes "SIG:" ++ (sha256 (sBytes (ph ++ "_" ++ toString n))).take 16 ++ [10]) :=
  ⟨fun i _ => sigDraws0_valid i, C6_sig 1 sigDraws0 (fun i _ => sigDraws0_valid i)⟩

/-- C7: the header written before any record is exactly 25 bytes: the
17-byte magic tag (`DFS_THREAT_DB_V1` plus a NUL byte) followed by the
8-byte little-endian encoding of zero, so records start at byte offset 25
in every run. -/
theorem C7_header :
    HEADER.length = 25 ∧
    HEADER = sBytes "DFS_THREAT_DB_V1\x00" ++ pack_Q_LE 0 ∧
    (sBytes "DFS_THREAT_DB_V1\x00").length = 17 ∧
    pack_Q_LE 0 = List.replicate 8 0 ∧
    ∀ d : RunDraws, (mainOutput d).1.take 25 = HEADER := by
  refine ⟨rfl, rfl, rfl, by decide, ?_⟩
  intro d
  rw [mainOutput_eq]
  exact mainAssemble_take _ _ _ _

/-- C8: the 8-byte reserved field at offsets 17..24 is written as zero and
never modified: every run's file is the header followed by appended records,
so the bytes at offsets 17..24 of the final file are all zero. -/
theorem C8_reserved (d : RunDraws) :
    (∃ rest, (mainOutput d).1 = HEADER ++ rest) ∧
    (∀ i, 17 ≤ i → i ≤ 24 → (mainOutput d).1.getD i 1 = 0) := by
  have hpre : ∃ rest, (mainOutput d).1 = HEADER ++ rest := by
    rw [mainOutput_eq]
    exact mainAssemble_prefix _ _ _ _
  refine ⟨hpre, fun i hi1 hi2 => ?_⟩
  obtain ⟨rest, hrest⟩ := hpre
  rw [hrest]
  have hlt : i < HEADER.length := by
    rw [HEADER_length]
    omega
  rw [List.getD_append _ _ _ _ hlt]
  interval_cases i <;> decide

/-- C8 witness: offset 17 of a concrete run is zero. -/
theorem C8_witness : 17 ≤ 17 ∧ 17 ≤ 24 ∧ (mainOutput run0).1.getD 17 1 = 0 :=
  ⟨by decide, by decide, (C8_reserved run0).2 17 (by decide) (by decide)⟩

end ThreatDB
